import Mathlib

/-
  Verification development for posthog/models/utils.py:
  the UUIDT legacy identifier (per-millisecond series counter, parse path),
  the uuid7 standard identifier, the base-N integer codec, token masking,
  and the unique-slug creation retry loop.

  Python semantics is embedded shallowly: Python strings are `List Char`,
  Python ints are `Int` (with `Int.emod`/`Int.ediv` for `&`-masking and `>>`
  on possibly negative values), Python dicts are association lists in
  insertion order, and the stateful class-level counter is explicit state
  passing.  External collaborators (the random source, the wall clock, the
  slugify normalizer, the persistence layer) are injected as parameters.
-/

namespace Posthog

/-! ## UUIDT.current_series_per_ms : a Python dict from timestamp to counter

`defaultdict(int)`: reading a missing key inserts it with value 0.
Association list in insertion order; keys are kept unique by `setK`. -/

abbrev SMap := List (Nat × Nat)

/-- Dict read with `defaultdict(int)` default 0 (no insertion; the insertion
performed by Python's `__getitem__` is made explicit inside `get_series`). -/
def getD : SMap → Nat → Nat
  | [], _ => 0
  | p :: rest, k => if p.1 = k then p.2 else getD rest k

def containsK : SMap → Nat → Bool
  | [], _ => false
  | p :: rest, k => p.1 = k || containsK rest k

/-- Dict write: update in place, or append a fresh key (insertion order). -/
def setK : SMap → Nat → Nat → SMap
  | [], k, v => [(k, v)]
  | p :: rest, k, v => if p.1 = k then (k, v) :: rest else p :: setK rest k v

/-- `len(dict)` = number of keys (keys are unique in well-formed maps). -/
def size (m : SMap) : Nat := m.length

/-- `UUIDT.get_series` (utils.py lines 79-88), one call as a state transformer:

    series = cls.current_series_per_ms[unix_time_ms]          -- defaultdict read, inserts 0
    if len(cls.current_series_per_ms) > 10_000:               -- eviction
        cls.current_series_per_ms.clear()
        cls.current_series_per_ms[unix_time_ms] = series
    cls.current_series_per_ms[unix_time_ms] += 1
    cls.current_series_per_ms[unix_time_ms] %= 65_536
    return series
-/
def get_series (m : SMap) (t : Nat) : Nat × SMap :=
  let m1 := if containsK m t then m else setK m t 0
  let series := getD m1 t
  let m2 := if size m1 > 10000 then setK [] t series else m1
  let m3 := setK m2 t (getD m2 t + 1)
  let m4 := setK m3 t (getD m3 t % 65536)
  (series, m4)

/-- `get_series` with the eviction (`clear()`) step removed, used to state
that eviction does not change the returned series value. -/
def get_series_noevict (m : SMap) (t : Nat) : Nat × SMap :=
  let m1 := if containsK m t then m else setK m t 0
  let series := getD m1 t
  let m3 := setK m1 t (getD m1 t + 1)
  let m4 := setK m3 t (getD m3 t % 65536)
  (series, m4)

/-- `k` consecutive `get_series` calls at one fixed timestamp, collecting the
returned series values in order. -/
def seriesRun (m : SMap) (t : Nat) : Nat → List Nat × SMap
  | 0 => ([], m)
  | k + 1 =>
    let r := seriesRun m t k
    let s := get_series r.2 t
    (r.1 ++ [s.1], s.2)

/-- The counter state after a sequence of `get_series` calls at the listed
timestamps (arbitrary interleaving of timestamps). -/
def seriesFold : SMap → List Nat → SMap
  | m, [] => m
  | m, t :: ts => seriesFold (get_series m t).2 ts

/-- Concrete counter map with 10001 tracked timestamps (keys 0..10000),
used to exercise the eviction branch. -/
def mBig : SMap := (0, 0) :: (List.range 10000).map (fun i => (i + 1, 0))

/-! ## UUIDT raw 128-bit value

`UUIDT.__init__` (lines 67-77) builds the identifier as
`unix_time_ms.to_bytes(6, "big") + series.to_bytes(2, "big") + random_component`
and interprets the 16 bytes big-endian, so for `t < 2^48`, `s < 2^16`,
`r < 2^64` the 128-bit integer value is `t * 2^80 + s * 2^64 + r`. -/

def UUIDT_value (t s r : Nat) : Nat := t * 2 ^ 80 + s * 2 ^ 64 + r

/-! ## UUIDT.is_valid_uuid and the constructor's parse-vs-mint dispatch -/

/-- Exact (character-equality) prefix test on char lists. -/
def listStartsWith : List Char → List Char → Bool
  | [], _ => true
  | _ :: _, [] => false
  | p :: ps, c :: cs => p = c && listStartsWith ps cs

/-- Worker for `removeOccs`, structurally recursive on a fuel argument
(`fuel ≥ length of the list` makes the fuel-exhaustion branch unreachable,
since every step shortens the list). -/
def removeOccsGo (pat : List Char) (fuel : Nat) (l : List Char) : List Char :=
  match fuel, l with
  | _, [] => []
  | 0, l => l
  | fuel + 1, c :: rest =>
    if pat ≠ [] ∧ listStartsWith pat (c :: rest) = true then
      removeOccsGo pat fuel (List.drop pat.length (c :: rest))
    else
      c :: removeOccsGo pat fuel rest

/-- Python `str.replace(pat, "")` for a nonempty pattern: delete non-overlapping
occurrences of `pat`, scanning left to right. -/
def removeOccs (pat : List Char) (l : List Char) : List Char :=
  removeOccsGo pat l.length l

def isBraceChar (c : Char) : Bool := c = Char.ofNat 123 || c = Char.ofNat 125

/-- Python `str.strip("{}")`: remove leading and trailing braces. -/
def pyStripBraces (l : List Char) : List Char :=
  ((l.dropWhile isBraceChar).reverse.dropWhile isBraceChar).reverse

/-- The stripping pipeline of `UUIDT.is_valid_uuid` (lines 94-95):
`candidate.replace("urn:", "").replace("uuid:", "").strip("{}").replace("-", "")`. -/
def stripDecorations (s : List Char) : List Char :=
  removeOccs (("-").toList)
    (pyStripBraces (removeOccs (("uuid:").toList) (removeOccs (("urn:").toList) s)))

def pyIsHexDigit (c : Char) : Bool :=
  (Char.ofNat 48 ≤ c && c ≤ Char.ofNat 57) ||
  (Char.ofNat 97 ≤ c && c ≤ Char.ofNat 102) ||
  (Char.ofNat 65 ≤ c && c ≤ Char.ofNat 70)

def hexDigitVal (c : Char) : Nat :=
  if Char.ofNat 48 ≤ c && c ≤ Char.ofNat 57 then c.toNat - 48
  else if Char.ofNat 97 ≤ c && c ≤ Char.ofNat 102 then c.toNat - 97 + 10
  else c.toNat - 65 + 10

def parseHexVal (l : List Char) : Nat := l.foldl (fun acc c => 16 * acc + hexDigitVal c) 0

/-- A Python call that either returns a value or lets an exception propagate. -/
inductive PyResult (α : Type)
  | val (a : α)
  | exc
deriving DecidableEq

/-- `UUIDT.is_valid_uuid` (lines 90-98).  After stripping decorations the
length must be 32; then `int(hex, 16)` parses the digits (a non-hex character
makes `int` raise `ValueError`, which propagates; `int`'s extra leniency for
sign/underscore/`0x` forms is not modelled) and the value must be below
`2^128`. -/
def is_valid_uuid (s : List Char) : PyResult Bool :=
  let hex := stripDecorations s
  if hex.length ≠ 32 then .val false
  else if hex.all pyIsHexDigit then .val (decide (parseHexVal hex < 2 ^ 128))
  else .exc

/-- Which path `UUIDT.__init__` (lines 63-77) takes for a given `uuid_str`:
`parsed` = the string is used as the identifier (no minting), `minted` = a
fresh identifier is generated from clock, counter and random source,
`raisedError` = an exception escapes the constructor. -/
inductive InitOutcome
  | parsed
  | minted
  | raisedError
deriving DecidableEq

/-- `if uuid_str and self.is_valid_uuid(uuid_str): super().__init__(uuid_str); return`
followed by the fresh-minting path. `None` and the empty string are falsy. -/
def UUIDT_init_dispatch (uuid_str : Option (List Char)) : InitOutcome :=
  match uuid_str with
  | none => .minted
  | some s =>
    if s = [] then .minted
    else
      match is_valid_uuid s with
      | .val true => .parsed
      | .val false => .minted
      | .exc => .raisedError

/-! ## uuid7 (lines 102-141) -/

/-- Python `n & (2^k - 1)` for an arbitrary (possibly negative) int:
the mathematical residue mod `2^k`. -/
def pyMask (n : Int) (k : Nat) : Nat := (n % (2 ^ k : Int)).toNat

/-- The `unix_ms_time` argument of `uuid7`, resolved to integer milliseconds.
`now` is `time_ns() // 10**6` (a nonnegative clock reading); `fromIso`
abstracts `int(datetime.fromisoformat(s).timestamp() * 1000)` as the integer
it produces. -/
inductive TsArg
  | now (ms : Nat)
  | fromInt (v : Int)
  | fromIso (ms : Int)

def resolveTs : TsArg → Int
  | .now ms => (ms : Int)
  | .fromInt v => v
  | .fromIso ms => ms

/-- The `random` argument of `uuid7`.  `system` carries
`int.from_bytes(secrets.token_bytes(10), "little")` (80 random bits),
`generator` carries the `getrandbits(12)` and `getrandbits(56)` draws, and
`seed` is an arbitrary Python int used directly. -/
inductive RandArg
  | system (tokenBytes : Fin (2 ^ 80))
  | generator (a : Fin (2 ^ 12)) (b : Fin (2 ^ 56))
  | seed (n : Int)

/-- The `(rand_a, rand_b)` pair of `uuid7` (lines 117-129).  In the seed
branch the code computes `random & 0x0FFF` and
`random >> 12 & 0x03FFFFFFFFFFFFFFF` (a 62-bit mask); Python `>>` on ints is
floor division, i.e. `Int.ediv` by a positive power of two. -/
def uuid7_rand : RandArg → Nat × Nat
  | .seed n => (pyMask n 12, pyMask (Int.ediv n (2 ^ 12)) 62)
  | .generator a b => (a.val, b.val)
  | .system bytes => (bytes.val % 2 ^ 12, bytes.val / 2 ^ 12 % 2 ^ 62)

/-- The packing of `uuid7` (lines 131-141):

    uuid_int  = (unix_ms_time_int & 0x0FFFFFFFFFFFF) << 80
    uuid_int |= ver << 76            -- ver = 7
    uuid_int |= rand_a << 64
    uuid_int |= var << 62            -- var = 0b10
    uuid_int |= rand_b
-/
def uuid7_int (ts : Int) (r : RandArg) : Nat :=
  let t := pyMask ts 48
  let ra := (uuid7_rand r).1
  let rb := (uuid7_rand r).2
  ((((t <<< 80) ||| (7 <<< 76)) ||| (ra <<< 64)) ||| (2 <<< 62)) ||| rb

/-- `uuid7` with both arguments in all their supported shapes. -/
def uuid7 (ta : TsArg) (r : RandArg) : Nat := uuid7_int (resolveTs ta) r

/-! ## mask_key_value (lines 228-234) -/

/-- `mask_key_value`: strings shorter than 16 characters are fully masked,
otherwise first 4 characters, literal "...", last 4 characters
(`value[:4]`, `value[-4:]`). -/
def mask_key_value (value : List Char) : List Char :=
  if value.length < 16 then ("********").toList
  else value.take 4 ++ ("...").toList ++ value.drop (value.length - 4)

/-! ## int_to_base (lines 237-247) -/

def BASE62 : List Char :=
  ("0123456789abcdefghijklmnopqrstuvwxyzABCDEFGHIJKLMNOPQRSTUVWXYZ").toList

/-- Python `s[:n]` for a possibly negative bound `n`
(`s[:n]` with `n < 0` keeps all but the last `-n` characters). -/
def pySliceTo (s : List Char) (n : Int) : List Char :=
  if 0 ≤ n then s.take n.toNat else s.take (s.length - (-n).toNat)

/-- Outcome of a call to `int_to_base` under a fuel bound on the loop. -/
inductive EncodeResult
  | ok (s : List Char)
  | valueError
  | zeroDivisionError
  | outOfFuel
deriving DecidableEq

/-- The `while number != 0` loop of `int_to_base`, with explicit fuel:
`outOfFuel` means the loop has not terminated within `fuel` iterations.
Each iteration runs `number, index = divmod(number, len(alphabet))` (raising
`ZeroDivisionError` on an empty alphabet) and prepends `alphabet[index]`;
on exit the function returns `value or "0"`. -/
def int_to_base_go (alph : List Char) (fuel : Nat) (n : Nat) (value : List Char) :
    EncodeResult :=
  match n with
  | 0 => .ok (if value = [] then [Char.ofNat 48] else value)
  | m + 1 =>
    match fuel with
    | 0 => .outOfFuel
    | f + 1 =>
      if alph.length = 0 then .zeroDivisionError
      else int_to_base_go alph f ((m + 1) / alph.length)
        (alph.getD ((m + 1) % alph.length) (Char.ofNat 48) :: value)

/-- `int_to_base(number, base)`: guard `base > 62` with `ValueError`, take the
alphabet prefix `BASE62[:base]` (Python slice semantics, so a negative base
yields a long alphabet), handle a negative number as `"-" + int_to_base(-number, base)`. -/
def int_to_base (number : Int) (base : Int) (fuel : Nat) : EncodeResult :=
  if base > 62 then .valueError
  else
    let alph := pySliceTo BASE62 base
    if number < 0 then
      match int_to_base_go alph fuel (-number).toNat [] with
      | .ok s => .ok (Char.ofNat 45 :: s)
      | e => e
    else int_to_base_go alph fuel number.toNat []

/-! ## create_with_slug (lines 264-283) -/

/-- Failure kinds the persistence collaborator (`create_func` inside
`transaction.atomic()`) can raise.  Both slug-uniqueness violations and other
constraint violations are Django `IntegrityError`s; connectivity failures are
not. -/
inductive CreateErr
  | slugUniqueViolation
  | otherIntegrityViolation
  | connectivityFailure
deriving DecidableEq

/-- Which exceptions the `except IntegrityError` clause (line 281) catches. -/
def isIntegrityError : CreateErr → Bool
  | .slugUniqueViolation => true
  | .otherIntegrityViolation => true
  | .connectivityFailure => false

def asciiLetters : List Char :=
  ("abcdefghijklmnopqrstuvwxyzABCDEFGHIJKLMNOPQRSTUVWXYZ").toList

/-- `generate_random_short_suffix` (lines 264-266): four draws of
`secrets.choice(string.ascii_letters)`, modelled by an injected draw
function `pick` into the 52-letter alphabet. -/
def generate_random_short_suffix (pick : Fin 4 → Fin 52) : List Char :=
  List.ofFn (fun i : Fin 4 => asciiLetters.getD (pick i).val (Char.ofNat 97))

/-- `slugified_name` (line 271):
`slugify(kwargs["name"])[:MAX_SLUG_LENGTH] if "name" in kwargs else default_slug`.
`slugify` is Django's normalizer, injected; `maxLen` stands for the
`MAX_SLUG_LENGTH` constant, which lives in `posthog/constants.py`
(modelled from the spec as the "maximum length budget" parameter). -/
def slugified_name (slugify : List Char → List Char) (name : Option (List Char))
    (default_slug : List Char) (maxLen : Nat) : List Char :=
  match name with
  | some nm => (slugify nm).take maxLen
  | none => default_slug

/-- The candidate slug of attempt `i` (lines 274-277): the base slug on
attempt 0, otherwise `f"{slugified_name[: MAX_SLUG_LENGTH - 5]}-{generate_random_short_suffix()}"`,
with `pick i` the random draws of attempt `i`. -/
def slugCandidate (base : List Char) (maxLen : Nat) (pick : Nat → Fin 4 → Fin 52)
    (i : Nat) : List Char :=
  if i = 0 then base
  else pySliceTo base ((maxLen : Int) - 5) ++ Char.ofNat 45 :: generate_random_short_suffix (pick i)

/-- Result of `create_with_slug`: a created entity together with the number
of `create_func` attempts made, a propagated exception (again with the
number of attempts made), or the final `Exception("Could not create a model
instance with slug in 10 tries!")`. -/
inductive SlugOutcome (T : Type)
  | created (v : T) (attempts : Nat)
  | raisedErr (e : CreateErr) (attempts : Nat)
  | exhausted
deriving DecidableEq

/-- The `for retry_i in range(10)` loop (lines 272-283): attempt `i` calls the
collaborator on candidate `cand i`; an `IntegrityError` is caught and the loop
continues, any other exception propagates, success returns.  `create i s`
models the outcome of calling `create_func` with slug `s` at attempt `i`
(the backing store's state may differ between attempts). -/
def createLoop {T : Type} (create : Nat → List Char → Except CreateErr T)
    (cand : Nat → List Char) : Nat → Nat → SlugOutcome T
  | _, 0 => .exhausted
  | i, fuel + 1 =>
    match create i (cand i) with
    | .ok v => .created v (i + 1)
    | .error e =>
      if isIntegrityError e then createLoop create cand (i + 1) fuel
      else .raisedErr e (i + 1)

/-- `create_with_slug` (lines 269-283). -/
def create_with_slug {T : Type} (create : Nat → List Char → Except CreateErr T)
    (slugify : List Char → List Char) (name : Option (List Char))
    (default_slug : List Char) (maxLen : Nat) (pick : Nat → Fin 4 → Fin 52) :
    SlugOutcome T :=
  createLoop create (slugCandidate (slugified_name slugify name default_slug maxLen) maxLen pick) 0 10

/-- A collaborator that raises a non-slug constraint violation on attempt 0
and succeeds on attempt 1. -/
def c3CreateFun : Nat → List Char → Except CreateErr Unit :=
  fun i _ => if i = 0 then .error .otherIntegrityViolation else .ok ()

/-! ## Lemmas about the counter map -/

theorem getD_setK_self (m : SMap) (k v : Nat) : getD (setK m k v) k = v := by
  induction m with
  | nil => simp [setK, getD]
  | cons p rest ih =>
    by_cases h : p.1 = k
    · simp [setK, h, getD]
    · simp [setK, h, getD, ih]

theorem containsK_setK_self (m : SMap) (k v : Nat) : containsK (setK m k v) k = true := by
  induction m with
  | nil => simp [setK, containsK]
  | cons p rest ih =>
    by_cases h : p.1 = k
    · simp [setK, h, containsK]
    · simp [setK, h, containsK, ih]

theorem getD_of_not_contains (m : SMap) (k : Nat) (h : containsK m k = false) :
    getD m k = 0 := by
  induction m with
  | nil => simp [getD]
  | cons p rest ih =>
    simp only [containsK, Bool.or_eq_false_iff, decide_eq_false_iff_not] at h
    simp [getD, h.1, ih h.2]

theorem length_setK (m : SMap) (k v : Nat) :
    (setK m k v).length = if containsK m k then m.length else m.length + 1 := by
  induction m with
  | nil => simp [setK, containsK]
  | cons p rest ih =>
    by_cases h : p.1 = k
    · simp [setK, h, containsK]
    · simp only [setK, h, if_neg, ite_false, List.length_cons, ih, containsK,
        decide_eq_true_eq]
      split <;> simp [*]

theorem getD_if_insert (m : SMap) (t : Nat) :
    getD (if containsK m t then m else setK m t 0) t = getD m t := by
  by_cases h : containsK m t = true
  · simp [h]
  · have h' : containsK m t = false := by simpa using h
    simp [h', getD_setK_self, getD_of_not_contains m t h']

theorem get_series_fst (m : SMap) (t : Nat) : (get_series m t).1 = getD m t := by
  simp only [get_series]
  exact getD_if_insert m t

theorem getD_get_series_snd (m : SMap) (t : Nat) :
    getD (get_series m t).2 t = (getD m t + 1) % 65536 := by
  simp only [get_series]
  rw [getD_setK_self, getD_setK_self]
  by_cases h2 : size (if containsK m t then m else setK m t 0) > 10000
  · rw [if_pos h2, getD_setK_self, getD_if_insert]
  · rw [if_neg h2, getD_if_insert]

theorem getD_get_series_noevict_snd (m : SMap) (t : Nat) :
    getD (get_series_noevict m t).2 t = (getD m t + 1) % 65536 := by
  simp only [get_series_noevict]
  rw [getD_setK_self, getD_setK_self, getD_if_insert]

theorem size_setK_of_contains (m : SMap) (k v : Nat) (h : containsK m k = true) :
    size (setK m k v) = size m := by
  simp only [size]
  rw [length_setK, if_pos h]

theorem size_get_series (m : SMap) (t : Nat) : size (get_series m t).2 ≤ 10000 := by
  simp only [get_series]
  by_cases h2 : size (if containsK m t then m else setK m t 0) > 10000
  · rw [if_pos h2]
    rw [size_setK_of_contains _ _ _ (by rw [containsK_setK_self])]
    rw [size_setK_of_contains _ _ _ (by simp [setK, containsK])]
    simp [setK, size]
  · rw [if_neg h2]
    have hc : containsK (if containsK m t then m else setK m t 0) t = true := by
      by_cases h : containsK m t = true
      · simpa [h] using h
      · have h' : containsK m t = false := by simpa using h
        simp [h', containsK_setK_self]
    rw [size_setK_of_contains _ _ _ (by rw [containsK_setK_self])]
    rw [size_setK_of_contains _ _ _ hc]
    omega

theorem seriesFold_le (ts : List Nat) : ∀ m : SMap, size m ≤ 10001 →
    size (seriesFold m ts) ≤ 10001 := by
  induction ts with
  | nil => intro m h; simpa [seriesFold] using h
  | cons t ts ih =>
    intro m _
    have := size_get_series m t
    exact ih (get_series m t).2 (by omega)

theorem seriesRun_invariant (m : SMap) (t : Nat) (hm : containsK m t = false) :
    ∀ k : Nat, (seriesRun m t k).1 = (List.range k).map (fun i => i % 65536) ∧
      getD (seriesRun m t k).2 t = k % 65536 := by
  intro k
  induction k with
  | zero => simp [seriesRun, getD_of_not_contains m t hm]
  | succ k ih =>
    constructor
    · simp only [seriesRun, get_series_fst]
      rw [List.range_succ, List.map_append, ih.1, ih.2]
      simp
    · simp only [seriesRun, getD_get_series_snd, ih.2]
      omega

/-- Claim C5: starting from a state where timestamp `t` is untracked, a run of
`k ≤ 65536` consecutive `get_series` calls at exactly `t` returns the sequence
values `0, 1, …, k-1` in order with no repeats, and the call following 65536
generations at `t` returns sequence `0`. -/
theorem uuidt_series_sequence (m : SMap) (t k : Nat)
    (hm : containsK m t = false) (hk : k ≤ 65536) :
    (seriesRun m t k).1 = List.range k ∧
    (get_series (seriesRun m t 65536).2 t).1 = 0 := by
  constructor
  · rw [(seriesRun_invariant m t hm k).1]
    have : ∀ i ∈ List.range k, i % 65536 = i := by
      intro i hi
      rw [List.mem_range] at hi
      omega
    rw [List.map_congr_left this]
    simp
  · rw [get_series_fst, (seriesRun_invariant m t hm 65536).2]

theorem uuidt_series_sequence_witness :
    containsK [] 5 = false ∧ 3 ≤ 65536 ∧ (seriesRun [] 5 3).1 = List.range 3 :=
  ⟨by decide, by decide, (uuidt_series_sequence [] 5 3 (by decide) (by decide)).1⟩

/-- Claim C7: if the counter map, including the entry for the timestamp being
minted, holds more than 10,000 entries, the post-state map is exactly the one
entry for the current timestamp; the returned sequence value (and the stored
counter for the current timestamp) is the same as without the eviction; and
every state reachable from the empty map stays at or below 10,001 entries. -/
theorem get_series_eviction_spec :
    (∀ (m : SMap) (t : Nat),
        size (if containsK m t then m else setK m t 0) > 10000 →
        (get_series m t).2 = [(t, (getD m t + 1) % 65536)]) ∧
    (∀ (m : SMap) (t : Nat),
        (get_series m t).1 = (get_series_noevict m t).1 ∧
        getD (get_series m t).2 t = getD (get_series_noevict m t).2 t) ∧
    (∀ ts : List Nat, size (seriesFold [] ts) ≤ 10001) := by
  refine ⟨?_, ?_, ?_⟩
  · intro m t h
    simp only [get_series]
    rw [if_pos h]
    simp [setK, getD, getD_if_insert]
  · intro m t
    exact ⟨rfl, by rw [getD_get_series_snd, getD_get_series_noevict_snd]⟩
  · intro ts
    exact seriesFold_le ts [] (by simp [size])

theorem get_series_eviction_witness :
    size (if containsK mBig 0 then mBig else setK mBig 0 0) > 10000 ∧
    (get_series mBig 0).2 = [(0, 1)] := by
  have hc : containsK mBig 0 = true := rfl
  have hs : size (if containsK mBig 0 then mBig else setK mBig 0 0) > 10000 := by
    rw [if_pos hc]
    simp only [size, mBig, List.length_cons, List.length_map, List.length_range]
    omega
  refine ⟨hs, ?_⟩
  rw [get_series_eviction_spec.1 mBig 0 hs]
  have hg : getD mBig 0 = 0 := rfl
  rw [hg]

/-- Claim C6: for identifiers with 48-bit timestamps `ta < tb`, any 16-bit
sequence fields and 64-bit random tails, the raw 128-bit value of the first
is strictly below that of the second. -/
theorem uuidt_value_time_sorted (ta tb sa sb ra rb : Nat)
    (hab : ta < tb) (hta : ta < 2 ^ 48) (htb : tb < 2 ^ 48)
    (hsa : sa < 2 ^ 16) (hsb : sb < 2 ^ 16) (hra : ra < 2 ^ 64) (hrb : rb < 2 ^ 64) :
    UUIDT_value ta sa ra < UUIDT_value tb sb rb := by
  simp only [UUIDT_value]
  norm_num at *
  omega

theorem uuidt_value_time_sorted_witness :
    (1 : Nat) < 2 ∧ UUIDT_value 1 65535 18446744073709551615 < UUIDT_value 2 0 0 :=
  ⟨by decide, uuidt_value_time_sorted 1 2 65535 0 18446744073709551615 0 (by decide)
    (by norm_num) (by norm_num) (by norm_num) (by norm_num) (by norm_num) (by norm_num)⟩

/-! ## Lemmas about uuid7 -/

theorem pyMask_lt (n : Int) (k : Nat) : pyMask n k < 2 ^ k := by
  have hpos : (0 : Int) < 2 ^ k := by positivity
  have h1 := Int.emod_nonneg n (ne_of_gt hpos)
  have h2 := Int.emod_lt_of_pos n hpos
  have hcast : ((2 ^ k : Nat) : Int) = 2 ^ k := by push_cast; ring
  simp only [pyMask]
  omega

theorem uuid7_rand_fst_lt (r : RandArg) : (uuid7_rand r).1 < 2 ^ 12 := by
  cases r with
  | system b => exact Nat.mod_lt _ (by norm_num)
  | generator a b => exact a.isLt
  | seed n => exact pyMask_lt n 12

theorem uuid7_rand_snd_lt (r : RandArg) : (uuid7_rand r).2 < 2 ^ 62 := by
  cases r with
  | system b => exact Nat.mod_lt _ (by norm_num)
  | generator a b => exact lt_trans b.isLt (by norm_num)
  | seed n => exact pyMask_lt _ 62

/-- Bitwise or of disjoint values is addition. -/
theorem lor_eq_add {a b : Nat} (k : Nat) (hd : 2 ^ k ∣ a) (hb : b < 2 ^ k) :
    a ||| b = a + b := by
  obtain ⟨c, rfl⟩ := hd
  exact (Nat.mul_add_lt_is_or hb c).symm

/-- The uuid7 or-chain writes each field into disjoint bit ranges, so the
packed integer is the corresponding sum. -/
theorem uuid7_int_eq_sum (ts : Int) (r : RandArg) :
    uuid7_int ts r = pyMask ts 48 * 2 ^ 80 + 7 * 2 ^ 76 +
      (uuid7_rand r).1 * 2 ^ 64 + 2 * 2 ^ 62 + (uuid7_rand r).2 := by
  have hra := uuid7_rand_fst_lt r
  have hrb := uuid7_rand_snd_lt r
  simp only [uuid7_int, Nat.shiftLeft_eq]
  set t := pyMask ts 48 with ht
  set ra := (uuid7_rand r).1 with hA
  set rb := (uuid7_rand r).2 with hB
  have e1 : t * 2 ^ 80 ||| 7 * 2 ^ 76 = t * 2 ^ 80 + 7 * 2 ^ 76 :=
    lor_eq_add 80 (dvd_mul_left _ _) (by norm_num)
  have e2 : t * 2 ^ 80 + 7 * 2 ^ 76 ||| ra * 2 ^ 64 =
      t * 2 ^ 80 + 7 * 2 ^ 76 + ra * 2 ^ 64 := by
    refine lor_eq_add 76 ?_ ?_
    · exact dvd_add (Dvd.dvd.mul_left (pow_dvd_pow 2 (by norm_num)) _)
        (Dvd.dvd.mul_left dvd_rfl 7)
    · calc ra * 2 ^ 64 < 2 ^ 12 * 2 ^ 64 := mul_lt_mul_of_pos_right hra (by positivity)
        _ = 2 ^ 76 := by norm_num
  have e3 : t * 2 ^ 80 + 7 * 2 ^ 76 + ra * 2 ^ 64 ||| 2 * 2 ^ 62 =
      t * 2 ^ 80 + 7 * 2 ^ 76 + ra * 2 ^ 64 + 2 * 2 ^ 62 := by
    refine lor_eq_add 64 ?_ (by norm_num)
    refine dvd_add (dvd_add ?_ ?_) ?_
    · exact Dvd.dvd.mul_left (pow_dvd_pow 2 (by norm_num)) _
    · exact Dvd.dvd.mul_left (pow_dvd_pow 2 (by norm_num)) 7
    · exact dvd_mul_left _ _
  have e4 : t * 2 ^ 80 + 7 * 2 ^ 76 + ra * 2 ^ 64 + 2 * 2 ^ 62 ||| rb =
      t * 2 ^ 80 + 7 * 2 ^ 76 + ra * 2 ^ 64 + 2 * 2 ^ 62 + rb := by
    refine lor_eq_add 62 ?_ hrb
    refine dvd_add (dvd_add (dvd_add ?_ ?_) ?_) ?_
    · exact Dvd.dvd.mul_left (pow_dvd_pow 2 (by norm_num)) _
    · exact Dvd.dvd.mul_left (pow_dvd_pow 2 (by norm_num)) 7
    · exact Dvd.dvd.mul_left (pow_dvd_pow 2 (by norm_num)) _
    · exact Dvd.dvd.mul_left dvd_rfl 2
  rw [e1, e2, e3, e4]

/-- Claim C8: for every combination of timestamp argument (absent, integer,
or ISO-8601 string) and randomness argument (absent, random generator, or
integer seed), the 128-bit value produced by uuid7 has bits 79-76 equal to
0111 (version 7) and bits 63-62 equal to 10 (the variant tag). -/
theorem uuid7_version_variant (ta : TsArg) (r : RandArg) :
    uuid7 ta r / 2 ^ 76 % 2 ^ 4 = 7 ∧ uuid7 ta r / 2 ^ 62 % 2 ^ 2 = 2 := by
  have hra := uuid7_rand_fst_lt r
  have hrb := uuid7_rand_snd_lt r
  rw [uuid7, uuid7_int_eq_sum]
  norm_num at hra hrb ⊢
  omega

/-- Claim C4 (amended): with an integer seed in place of a random source,
the rand_a field of the uuid7 result (bits 75-64) is the seed's low 12 bits,
and the low 62-bit field equals the seed shifted right by 12 and masked to
62 bits (mask 0x03FFFFFFFFFFFFFFF), not 56. -/
theorem uuid7_seed_fields (ts n : Int) :
    uuid7_int ts (RandArg.seed n) / 2 ^ 64 % 2 ^ 12 = pyMask n 12 ∧
    uuid7_int ts (RandArg.seed n) % 2 ^ 62 = pyMask (Int.ediv n (2 ^ 12)) 62 := by
  have hra := uuid7_rand_fst_lt (RandArg.seed n)
  have hrb := uuid7_rand_snd_lt (RandArg.seed n)
  rw [uuid7_int_eq_sum]
  simp only [uuid7_rand] at hra hrb ⊢
  norm_num at hra hrb ⊢
  omega

/-- Claim C4 counterexample: for the seed 2^68 the code's rand_b is 2^56
(bit 56 of the low 62-bit field is set), while a 56-bit mask would give 0. -/
theorem uuid7_seed_c4_counterexample :
    (uuid7_rand (RandArg.seed (2 ^ 68))).2 = 2 ^ 56 ∧
    (uuid7_rand (RandArg.seed (2 ^ 68))).2 ≠ pyMask (Int.ediv (2 ^ 68) (2 ^ 12)) 56 ∧
    uuid7_int 0 (RandArg.seed (2 ^ 68)) % 2 ^ 62 / 2 ^ 56 % 2 = 1 := by
  refine ⟨by decide, by decide, ?_⟩
  rw [uuid7_int_eq_sum]
  decide

/-! ## mask_key_value -/

/-- Claim C1 counterexample: the 12-character token "phx_abcdEFGH" is shorter
than 16 characters, so the code returns the fixed mask "********" and not
"phx_...EFGH" as the claim's example asserts. -/
theorem mask_key_value_c1_counterexample :
    mask_key_value (("phx_abcdEFGH").toList) = ("********").toList ∧
    mask_key_value (("phx_abcdEFGH").toList) ≠ ("phx_...EFGH").toList := by
  constructor <;> decide

/-- Claim C1 (amended): every input shorter than 16 characters is masked as
the fixed 8-character string "********"; every input of length at least 16
is masked as its first 4 characters, a literal "...", and its last 4
characters; in particular the 12-character token "phx_abcdEFGH" falls in the
short branch and yields "********" (a 16-character token such as
"phx_12345678abcd" yields "phx_...abcd"). -/
theorem mask_key_value_amended :
    (∀ v : List Char, v.length < 16 → mask_key_value v = ("********").toList) ∧
    (∀ v : List Char, 16 ≤ v.length →
        mask_key_value v = v.take 4 ++ ("...").toList ++ v.drop (v.length - 4)) ∧
    mask_key_value (("phx_abcdEFGH").toList) = ("********").toList ∧
    mask_key_value (("phx_12345678abcd").toList) = ("phx_...abcd").toList := by
  refine ⟨?_, ?_, by decide, by decide⟩
  · intro v h
    simp [mask_key_value, h]
  · intro v h
    rw [mask_key_value, if_neg (by omega)]

theorem mask_key_value_amended_witness :
    (("ab").toList).length < 16 ∧ mask_key_value (("ab").toList) = ("********").toList :=
  ⟨by decide, mask_key_value_amended.1 (("ab").toList) (by decide)⟩

/-! ## UUIDT parse path -/

/-- Claim C2 counterexample: "z" is not a valid 32-hex-digit value, yet the
constructor does not fail: it mints a fresh identifier from clock, counter
and random source. -/
theorem uuidt_parse_c2_counterexample :
    UUIDT_init_dispatch (some (("z").toList)) = InitOutcome.minted ∧
    InitOutcome.minted ≠ InitOutcome.raisedError := by
  constructor <;> decide

/-- Claim C2 (amended): for every uuid_str whose stripped form does not have
exactly 32 characters, `UUIDT.__init__` does not raise any error: it silently
falls through and mints a fresh identifier from the clock, counter and random
source. -/
theorem uuidt_invalid_string_mints (s : List Char)
    (h : (stripDecorations s).length ≠ 32) :
    UUIDT_init_dispatch (some s) = InitOutcome.minted := by
  by_cases hs : s = []
  · simp [UUIDT_init_dispatch, hs]
  · show (if s = [] then InitOutcome.minted
      else match is_valid_uuid s with
        | PyResult.val true => InitOutcome.parsed
        | PyResult.val false => InitOutcome.minted
        | PyResult.exc => InitOutcome.raisedError) = InitOutcome.minted
    rw [if_neg hs]
    have hv : is_valid_uuid s = .val false := by
      unfold is_valid_uuid
      rw [if_pos h]
    rw [hv]

theorem uuidt_invalid_string_mints_witness :
    (stripDecorations (("z").toList)).length ≠ 32 ∧
    UUIDT_init_dispatch (some (("z").toList)) = InitOutcome.minted :=
  ⟨by decide, uuidt_invalid_string_mints (("z").toList) (by decide)⟩

/-! ## create_with_slug : retry behavior -/

theorem createLoop_skip {T : Type} (create : Nat → List Char → Except CreateErr T)
    (cand : Nat → List Char) (i fuel : Nat) (e : CreateErr)
    (he : create i (cand i) = .error e) (hint : isIntegrityError e = true) :
    createLoop create cand i (fuel + 1) = createLoop create cand (i + 1) fuel := by
  simp [createLoop, he, hint]

theorem createLoop_propagate {T : Type} (create : Nat → List Char → Except CreateErr T)
    (cand : Nat → List Char) :
    ∀ (k i fuel : Nat) (e : CreateErr), k < fuel →
      (∀ j, j < k → ∃ ej, create (i + j) (cand (i + j)) = .error ej ∧
        isIntegrityError ej = true) →
      create (i + k) (cand (i + k)) = .error e → isIntegrityError e = false →
      createLoop create cand i fuel = .raisedErr e (i + k + 1) := by
  intro k
  induction k with
  | zero =>
    intro i fuel e hk _ hcur hni
    obtain ⟨f, rfl⟩ : ∃ f, fuel = f + 1 := ⟨fuel - 1, by omega⟩
    rw [Nat.add_zero] at hcur
    simp [createLoop, hcur, hni]
  | succ k ih =>
    intro i fuel e hk hprev hcur hni
    obtain ⟨f, rfl⟩ : ∃ f, fuel = f + 1 := ⟨fuel - 1, by omega⟩
    obtain ⟨e0, he0, hint0⟩ := hprev 0 (by omega)
    rw [Nat.add_zero] at he0
    rw [createLoop_skip create cand i f e0 he0 hint0]
    have hprev2 : ∀ j, j < k → ∃ ej, create (i + 1 + j) (cand (i + 1 + j)) = .error ej ∧
        isIntegrityError ej = true := by
      intro j hj
      obtain ⟨ej, hej, hintj⟩ := hprev (j + 1) (by omega)
      rw [show i + (j + 1) = i + 1 + j by omega] at hej
      exact ⟨ej, hej, hintj⟩
    have hcur2 : create (i + 1 + k) (cand (i + 1 + k)) = .error e := by
      rw [show i + 1 + k = i + (k + 1) by omega]
      exact hcur
    rw [ih (i + 1) f e (by omega) hprev2 hcur2 hni]
    congr 1
    omega

/-- Claim C3 counterexample: a non-slug constraint violation (an
IntegrityError that is not a slug-uniqueness conflict) on attempt 0 does not
propagate: the loop retries and a second attempt is made. -/
theorem create_with_slug_c3_counterexample :
    create_with_slug c3CreateFun (fun l => l) none [] 48 (fun _ _ => 0) =
      SlugOutcome.created () 2 ∧
    SlugOutcome.created () 2 ≠
      (SlugOutcome.raisedErr CreateErr.otherIntegrityViolation 1 : SlugOutcome Unit) := by
  constructor <;> decide

/-- Claim C3 (amended): in create_with_slug every IntegrityError — the
slug-uniqueness conflict as well as any other integrity/constraint
violation — triggers a retry with a new disambiguated candidate, and every
non-IntegrityError failure (for example a connectivity failure) raised by
the collaborator propagates to the caller on its first occurrence, with no
further attempts made. -/
theorem create_with_slug_retry_amended {T : Type}
    (create : Nat → List Char → Except CreateErr T) (slugify : List Char → List Char)
    (name : Option (List Char)) (default_slug : List Char) (maxLen : Nat)
    (pick : Nat → Fin 4 → Fin 52) (i : Nat) (e : CreateErr)
    (hi : i < 10)
    (hprev : ∀ j, j < i → ∃ ej,
      create j (slugCandidate (slugified_name slugify name default_slug maxLen) maxLen pick j)
        = .error ej ∧ isIntegrityError ej = true)
    (hcur : create i (slugCandidate (slugified_name slugify name default_slug maxLen) maxLen pick i)
        = .error e)
    (hni : isIntegrityError e = false) :
    create_with_slug create slugify name default_slug maxLen pick = .raisedErr e (i + 1) := by
  unfold create_with_slug
  have h := createLoop_propagate create
    (slugCandidate (slugified_name slugify name default_slug maxLen) maxLen pick)
    i 0 10 e hi ?_ ?_ hni
  · simpa using h
  · intro j hj
    simpa using hprev j hj
  · simpa using hcur

theorem create_with_slug_retry_amended_witness :
    (0 : Nat) < 10 ∧
    create_with_slug
        (fun _ _ => (Except.error CreateErr.connectivityFailure : Except CreateErr Unit))
        (fun l => l) none [] 48 (fun _ _ => 0) =
      SlugOutcome.raisedErr CreateErr.connectivityFailure 1 :=
  ⟨by decide,
    create_with_slug_retry_amended (fun _ _ => .error .connectivityFailure)
      (fun l => l) none [] 48 (fun _ _ => 0) 0 .connectivityFailure (by decide)
      (fun j hj => absurd hj (by omega)) rfl rfl⟩

/-! ## create_with_slug : candidate slug shape and length -/

theorem getD_mem_of_lt {α : Type} (l : List α) (n : Nat) (d : α) (h : n < l.length) :
    l.getD n d ∈ l := by
  induction l generalizing n with
  | nil => simp at h
  | cons a rest ih =>
    cases n with
    | zero => simp
    | succ n =>
      rw [List.getD_cons_succ]
      exact List.mem_cons_of_mem a (ih n (by simpa using h))

/-- Claim C9 counterexample: with no name supplied and a 49-character
default_slug, the attempt-0 candidate is used untruncated and exceeds a
max_length of 48. -/
theorem slug_candidate_c9_counterexample :
    (slugCandidate (slugified_name (fun l => l) none (List.replicate 49 (Char.ofNat 97)) 48)
        48 (fun _ _ => 0) 0).length = 49 ∧ ¬(49 ≤ 48) := by
  constructor
  · simp [slugCandidate, slugified_name]
  · decide

/-- Claim C9 (amended): every retry candidate (attempt i ≥ 1) is the base
slug truncated to max_length - 5, a hyphen, and exactly 4 random ASCII
letters, and — given max_length ≥ 5, as holds for the repository constant —
never exceeds max_length; the attempt-0 candidate never exceeds max_length
whenever a name is supplied (when no name is supplied the raw default_slug
is used untruncated and may exceed max_length). -/
theorem slug_candidate_length_amended :
    (∀ (base : List Char) (maxLen : Nat) (pick : Nat → Fin 4 → Fin 52) (i : Nat),
        i ≠ 0 →
        slugCandidate base maxLen pick i =
          pySliceTo base ((maxLen : Int) - 5) ++
            Char.ofNat 45 :: generate_random_short_suffix (pick i) ∧
        (generate_random_short_suffix (pick i)).length = 4 ∧
        (∀ c ∈ generate_random_short_suffix (pick i), c ∈ asciiLetters)) ∧
    (∀ (base : List Char) (maxLen : Nat) (pick : Nat → Fin 4 → Fin 52) (i : Nat),
        5 ≤ maxLen → i ≠ 0 → (slugCandidate base maxLen pick i).length ≤ maxLen) ∧
    (∀ (slugify : List Char → List Char) (nm default_slug : List Char) (maxLen : Nat)
        (pick : Nat → Fin 4 → Fin 52),
        (slugCandidate (slugified_name slugify (some nm) default_slug maxLen)
          maxLen pick 0).length ≤ maxLen) := by
  refine ⟨?_, ?_, ?_⟩
  · intro base maxLen pick i hi
    refine ⟨by rw [slugCandidate, if_neg hi], by simp [generate_random_short_suffix], ?_⟩
    intro c hc
    rw [generate_random_short_suffix, List.mem_ofFn] at hc
    obtain ⟨j, rfl⟩ := hc
    exact getD_mem_of_lt asciiLetters (pick i j).val (Char.ofNat 97)
      (lt_of_lt_of_le (pick i j).isLt (by norm_num [asciiLetters]))
  · intro base maxLen pick i h5 hi
    rw [slugCandidate, if_neg hi]
    simp only [List.length_append, List.length_cons]
    have h1 : (pySliceTo base ((maxLen : Int) - 5)).length ≤ maxLen - 5 := by
      rw [pySliceTo, if_pos (by omega : (0 : Int) ≤ (maxLen : Int) - 5)]
      rw [List.length_take]
      omega
    have h2 : (generate_random_short_suffix (pick i)).length = 4 := by
      simp [generate_random_short_suffix]
    omega
  · intro slugify nm default_slug maxLen pick
    rw [slugCandidate, if_pos rfl]
    simp only [slugified_name, List.length_take]
    omega

theorem slug_candidate_length_amended_witness :
    5 ≤ 48 ∧ (1 : Nat) ≠ 0 ∧
    (slugCandidate (("hello").toList) 48 (fun _ _ => 0) 1).length ≤ 48 :=
  ⟨by decide, by decide,
    slug_candidate_length_amended.2.1 (("hello").toList) 48 (fun _ _ => 0) 1
      (by decide) (by decide)⟩

/-! ## int_to_base : termination behavior -/

theorem int_to_base_go_ok (alph : List Char) (h2 : 2 ≤ alph.length) :
    ∀ (n fuel : Nat) (acc : List Char), n < fuel →
      ∃ s, int_to_base_go alph fuel n acc = .ok s ∧ s ≠ [] := by
  intro n
  induction n using Nat.strong_induction_on with
  | _ n ih =>
    intro fuel acc hfuel
    cases n with
    | zero =>
      refine ⟨if acc = [] then [Char.ofNat 48] else acc, ?_, ?_⟩
      · simp only [int_to_base_go]
      · split
        · simp
        · assumption
    | succ m =>
      obtain ⟨f, rfl⟩ : ∃ f, fuel = f + 1 := ⟨fuel - 1, by omega⟩
      simp only [int_to_base_go]
      rw [if_neg (by omega : ¬alph.length = 0)]
      refine ih ((m + 1) / alph.length) (Nat.div_lt_self (by omega) (by omega)) f _ ?_
      have := Nat.div_lt_self (show 0 < m + 1 by omega) (show 1 < alph.length by omega)
      omega

theorem int_to_base_go_base1 (alph : List Char) (h1 : alph.length = 1) :
    ∀ (fuel m : Nat) (acc : List Char),
      int_to_base_go alph fuel (m + 1) acc = .outOfFuel := by
  intro fuel
  induction fuel with
  | zero => intro m acc; rfl
  | succ f ih =>
    intro m acc
    simp only [int_to_base_go, h1, Nat.div_one]
    rw [if_neg (by omega : ¬(1 : Nat) = 0)]
    exact ih m _

theorem int_to_base_go_base0 (alph : List Char) (h0 : alph.length = 0)
    (fuel m : Nat) (acc : List Char) :
    int_to_base_go alph (fuel + 1) (m + 1) acc = .zeroDivisionError := by
  simp only [int_to_base_go, h0]
  simp

theorem pySliceTo_BASE62_length (base : Int) (h0 : 0 ≤ base) (h62 : base ≤ 62) :
    (pySliceTo BASE62 base).length = base.toNat := by
  rw [pySliceTo, if_pos h0, List.length_take]
  have hb : BASE62.length = 62 := rfl
  omega

/-- Claim C10: `int_to_base(n, base)` terminates and returns a nonempty
string for every integer `n` whenever `2 ≤ base ≤ 62`; outside that range
termination is not guaranteed even though only `base ≤ 62` is guarded:
for base 1 the loop makes no progress on any nonzero n (no amount of fuel
makes it terminate), and for base 0 the unguarded division raises
ZeroDivisionError on any nonzero n. -/
theorem int_to_base_termination_spec :
    (∀ (n base : Int), 2 ≤ base → base ≤ 62 →
        ∃ (fuel : Nat) (s : List Char), int_to_base n base fuel = .ok s ∧ s ≠ []) ∧
    (∀ (n : Int) (fuel : Nat), n ≠ 0 → int_to_base n 1 fuel = .outOfFuel) ∧
    (∀ (n : Int) (fuel : Nat), n ≠ 0 → int_to_base n 0 (fuel + 1) = .zeroDivisionError) := by
  refine ⟨?_, ?_, ?_⟩
  · intro n base hb2 hb62
    have halph : 2 ≤ (pySliceTo BASE62 base).length := by
      rw [pySliceTo_BASE62_length base (by omega) hb62]
      omega
    by_cases hn : n < 0
    · obtain ⟨s, hs, hne⟩ :=
        int_to_base_go_ok (pySliceTo BASE62 base) halph (-n).toNat ((-n).toNat + 1) []
          (by omega)
      refine ⟨(-n).toNat + 1, Char.ofNat 45 :: s, ?_, by simp⟩
      simp only [int_to_base]
      rw [if_neg (by omega : ¬base > 62), if_pos hn, hs]
    · obtain ⟨s, hs, hne⟩ :=
        int_to_base_go_ok (pySliceTo BASE62 base) halph n.toNat (n.toNat + 1) [] (by omega)
      refine ⟨n.toNat + 1, s, ?_, hne⟩
      simp only [int_to_base]
      rw [if_neg (by omega : ¬base > 62), if_neg hn, hs]
  · intro n fuel hn
    have halph : (pySliceTo BASE62 1).length = 1 := by
      rw [pySliceTo_BASE62_length 1 (by omega) (by omega)]
      rfl
    simp only [int_to_base]
    rw [if_neg (by omega : ¬(1 : Int) > 62)]
    by_cases hneg : n < 0
    · rw [if_pos hneg]
      obtain ⟨m, hm⟩ : ∃ m, (-n).toNat = m + 1 := ⟨(-n).toNat - 1, by omega⟩
      rw [hm, int_to_base_go_base1 _ halph fuel m []]
    · rw [if_neg hneg]
      obtain ⟨m, hm⟩ : ∃ m, n.toNat = m + 1 := ⟨n.toNat - 1, by omega⟩
      rw [hm, int_to_base_go_base1 _ halph fuel m []]
  · intro n fuel hn
    have halph : (pySliceTo BASE62 0).length = 0 := by
      rw [pySliceTo_BASE62_length 0 (by omega) (by omega)]
      rfl
    simp only [int_to_base]
    rw [if_neg (by omega : ¬(0 : Int) > 62)]
    by_cases hneg : n < 0
    · rw [if_pos hneg]
      obtain ⟨m, hm⟩ : ∃ m, (-n).toNat = m + 1 := ⟨(-n).toNat - 1, by omega⟩
      rw [hm, int_to_base_go_base0 _ halph fuel m []]
    · rw [if_neg hneg]
      obtain ⟨m, hm⟩ : ∃ m, n.toNat = m + 1 := ⟨n.toNat - 1, by omega⟩
      rw [hm, int_to_base_go_base0 _ halph fuel m []]

theorem int_to_base_termination_witness :
    (2 : Int) ≤ 62 ∧ (62 : Int) ≤ 62 ∧
    (∃ (fuel : Nat) (s : List Char), int_to_base 12345 62 fuel = .ok s ∧ s ≠ []) :=
  ⟨by decide, by decide, int_to_base_termination_spec.1 12345 62 (by decide) (by decide)⟩

end Posthog
